import Mathlib

/-!
# github-keys: retrying lookups, member resolution and authorized_keys rendering

A shallow embedding of `main.go` and `types.go`.

* Go strings and byte slices are Lean strings; a Go `error` is `Option String`
  (its text), `nil` being `none`.
* The GitHub client is a record of functions.  Every remote method receives the
  history of the remote invocations made before it (so that a client may fail a
  number of times and then answer) and answers with `Except String _`: on an
  error the Go client hands back a nil value next to the error.
* The effects of the program are threaded explicitly: the list of remote
  invocations, the lines printed to standard output, the files written and the
  ownership changes.
* `backoff.NewTicker` is a library outside the program: the number of ticks its
  channel delivers before it is closed is the parameter `ticks` of every retry
  loop.  The inner loop of `ListOrgMembers` has no bound in the source; `fuel`
  bounds it in the model and running out of it is the result `none`.
* Diagnostics sent to the logrus logger are not part of the state.
-/

namespace GithubKeys

/-! ## Data model -/

/-- Key stores a ssh public key and basic comment (`types.go`). -/
structure Key where
  Comment : String
  Key : String
deriving DecidableEq, Repr

/-- The `github.User` record: the fields are pointers in Go. -/
structure User where
  Login : Option String
  ID : Option Int
deriving DecidableEq, Repr

/-- Accessor `(*github.User).GetLogin`: the empty string for a nil field. -/
def User.GetLogin (u : User) : String := u.Login.getD ""

/-- The `github.Team` record. -/
structure Team where
  ID : Option Int
  Name : Option String
deriving DecidableEq, Repr

/-- Accessor `(*github.Team).GetID`: zero for a nil field. -/
def Team.GetID (t : Team) : Int := t.ID.getD 0

/-- Accessor `(*github.Team).GetName`: the empty string for a nil field. -/
def Team.GetName (t : Team) : String := t.Name.getD ""

/-- The `github.Membership` record. -/
structure Membership where
  State : Option String
deriving DecidableEq, Repr

/-- Accessor `(*github.Membership).GetState`, on a pointer that may be nil:
the empty string for a nil membership or a nil field. -/
def Membership.GetState : Option Membership → String
  | none => ""
  | some m => m.State.getD ""

/-- The `github.Key` record: a public key as listed by the remote. -/
structure GHKey where
  ID : Option Int
  Key : Option String
deriving DecidableEq, Repr

/-- Accessor `(*github.Key).GetID`. -/
def GHKey.GetID (k : GHKey) : Int := k.ID.getD 0

/-- Accessor `(*github.Key).GetKey`. -/
def GHKey.GetKey (k : GHKey) : String := k.Key.getD ""

/-! ## The remote client -/

/-- One remote invocation, with the page asked for where the call takes
list options (`0` is the zero value of `ListOptions.Page`: the first page). -/
inductive Call where
  | ListMembers (org : String) (page : Nat)
  | ListTeams (org : String) (page : Nat)
  | ListCollaborators (owner repo : String) (page : Nat)
  | GetTeamMembership (team : Int) (user : String)
  | ListKeys (user : String) (page : Nat)
deriving DecidableEq, Repr

/-- A successful answer of a listing call: the items of the page and the
`NextPage` cursor of the `github.Response` (`0` when there is none). -/
structure Page (α : Type) where
  items : List α
  NextPage : Nat
deriving DecidableEq, Repr

/-- The `github.Client` methods the program uses.  The first argument of each
is the list of remote invocations made so far. -/
structure Client where
  ListMembers : List Call → String → Nat → Except String (Page User)
  ListTeams : List Call → String → Nat → Except String (Page Team)
  ListCollaborators : List Call → String → String → Nat → Except String (Page User)
  GetTeamMembership : List Call → Int → String → Except String Membership
  ListKeys : List Call → String → Nat → Except String (Page GHKey)

/-! ## Strings -/

/-- Whether the second list starts the first one. -/
def startsWith : List Char → List Char → Bool
  | _, [] => true
  | [], _ :: _ => false
  | c :: cs, d :: ds => c == d && startsWith cs ds

/-- Whether `sub` occurs in `s` as a contiguous block. -/
def containsChars : List Char → List Char → Bool
  | [], sub => startsWith [] sub
  | c :: cs, sub => startsWith (c :: cs) sub || containsChars cs sub

/-- Go `strings.Contains`. -/
def Contains (s substr : String) : Bool := containsChars s.data substr.data

/-- Splitting a list of characters at every occurrence of `sep`. -/
def splitChars (sep : Char) : List Char → List (List Char)
  | [] => [[]]
  | c :: cs =>
    if c = sep then [] :: splitChars sep cs
    else
      match splitChars sep cs with
      | [] => [[c]]
      | w :: ws => (c :: w) :: ws

/-- Go `strings.Split` with a separator of one character. -/
def Split (s : String) (sep : Char) : List String :=
  (splitChars sep s.data).map String.mk

/-! ## Retry loops -/

/-- The loop shared by `GetTeamByName`, `GetRepoCollaborators`, `UserInTeam` and
`GetUserSSHKeys`:
`for range ticker.C { v, _, err = call(); if err != nil && retry(err) { continue }; ticker.Stop(); break }`.
The pair is the current content of the variables `v` and `err`; every tick
makes one remote invocation `c`; when the ticks run out the channel is closed
and the loop ends with what the variables hold. -/
def tickerLoop {α : Type} (call : List Call → Except String α) (c : Call)
    (retry : String → Bool) :
    Nat → Option α × Option String → List Call → (Option α × Option String) × List Call
  | 0, cur, tr => (cur, tr)
  | t + 1, _, tr =>
    match call tr with
    | .error e =>
      if retry e then tickerLoop call c retry t (none, some e) (tr ++ [c])
      else ((none, some e), tr ++ [c])
    | .ok v => ((some v, none), tr ++ [c])

/-- The Go pair `(v, err)` a remote answer is received as. -/
def received {α : Type} : Except String α → Option α × Option String
  | .ok v => (some v, none)
  | .error e => (none, some e)

/-- The items of a listing variable that may still be nil. -/
def itemsOf {α : Type} : Option (Page α) → List α
  | none => []
  | some p => p.items

/-- The inner `for` of `ListOrgMembers`: fetch the page `page`; on an error
`continue` (the same page again, no tick is awaited); otherwise append the page
and either `break` or move to `resp.NextPage`. -/
def ListOrgMembers.pages (gh : Client) (org : String) :
    Nat → Nat → List User → List Call → Option (List User × List Call)
  | 0, _, _, _ => none
  | fuel + 1, page, members, tr =>
    match gh.ListMembers tr org page with
    | .error _ =>
      ListOrgMembers.pages gh org fuel page members (tr ++ [Call.ListMembers org page])
    | .ok resp =>
      if resp.NextPage = 0 then
        some (members ++ resp.items, tr ++ [Call.ListMembers org page])
      else
        ListOrgMembers.pages gh org fuel resp.NextPage (members ++ resp.items)
          (tr ++ [Call.ListMembers org page])

/-- ListOrgMembers returns members of specified organisation.  The outer
`for range ticker.C` runs its body once (the body ends in `break`); the `err`
it returns is the outer variable, which is never assigned. -/
def ListOrgMembers (gh : Client) (ticks fuel : Nat) (org : String) (tr : List Call) :
    Option ((List User × Option String) × List Call) :=
  match ticks with
  | 0 => some (([], none), tr)
  | _ + 1 =>
    match ListOrgMembers.pages gh org fuel 0 [] tr with
    | none => none
    | some (members, tr') => some ((members, none), tr')

/-- GetTeamByName looks up a team by name. -/
def GetTeamByName (gh : Client) (ticks : Nat) (org name : String) (tr : List Call) :
    (Option Team × Option String) × List Call :=
  let r := tickerLoop (fun h => gh.ListTeams h org 0) (Call.ListTeams org 0)
    (fun _ => true) ticks (none, none) tr
  match r.1.2 with
  | some e => ((none, some e), r.2)
  | none =>
    match (itemsOf r.1.1).find? (fun team => team.GetName == name) with
    | some team => ((some team, none), r.2)
    | none =>
      ((none, some ("Team " ++ name ++ " not part of organisation " ++ org)), r.2)

/-- GetRepoCollaborators returns collaborators for a repo. -/
def GetRepoCollaborators (gh : Client) (ticks : Nat) (orgName orgRepo : String)
    (tr : List Call) : (List User × Option String) × List Call :=
  let r := tickerLoop (fun h => gh.ListCollaborators h orgName orgRepo 0)
    (Call.ListCollaborators orgName orgRepo 0) (fun _ => true) ticks (none, none) tr
  ((itemsOf r.1.1, r.1.2), r.2)

/-- The retry loop of `UserInTeam`: an error whose text contains
`404 Not Found` ends the loop, any other error is retried. -/
def UserInTeam.lookup (gh : Client) (ticks : Nat) (user : User) (team : Team)
    (tr : List Call) : (Option Membership × Option String) × List Call :=
  tickerLoop (fun h => gh.GetTeamMembership h team.GetID user.GetLogin)
    (Call.GetTeamMembership team.GetID user.GetLogin)
    (fun e => Contains e "404 Not Found" == false) ticks (none, none) tr

/-- UserInTeam returns boolean value indicating user is an active member of a team. -/
def UserInTeam (gh : Client) (ticks : Nat) (user : User) (team : Team)
    (tr : List Call) : Bool × List Call :=
  let r := UserInTeam.lookup gh ticks user team tr
  (if Membership.GetState r.1.1 = "active" then true else false, r.2)

/-- The comment of a key: `fmt.Sprintf("%s - %d", user.GetLogin(), item.GetID())`. -/
def keyComment (user : User) (item : GHKey) : String :=
  user.GetLogin ++ " - " ++ toString item.GetID

/-- GetUserSSHKeys returns ssh public keys associated with the specified user. -/
def GetUserSSHKeys (gh : Client) (ticks : Nat) (user : User) (tr : List Call) :
    (List Key × Option String) × List Call :=
  let r := tickerLoop (fun h => gh.ListKeys h user.GetLogin 0)
    (Call.ListKeys user.GetLogin 0) (fun _ => true) ticks (none, none) tr
  (((itemsOf r.1.1).foldl
      (fun userKeys item => userKeys ++ [Key.mk (keyComment user item) item.GetKey]) [],
    r.1.2), r.2)

/-- RenderAuthorizedKeys does exactly what it sounds like: every key is written
to the buffer as `fmt.Sprintf("# %s\n%s\n", key.Comment, key.Key)`. -/
def RenderAuthorizedKeys (keys : List Key) : String :=
  keys.foldl (fun buffer key => buffer ++ ("# " ++ key.Comment ++ "\n" ++ key.Key ++ "\n")) ""

/-! ## The sync cycle -/

/-- The flags of the command line, as parsed by `kingpin.Parse`. -/
structure Config where
  cliOrg : String
  cliTeam : String
  cliRepo : String
  cliFile : String
  cliOwner : String
  cliDaemon : Bool
deriving DecidableEq, Repr

/-- The operating system services `syncKeys` calls after rendering:
`ioutil.WriteFile`, `user.Lookup` (the `Uid` and `Gid` texts), `strconv.Atoi`
and `os.Chown`. -/
structure OS where
  WriteFile : String → String → Nat → Option String
  Lookup : String → Except String (String × String)
  Atoi : String → Except String Int
  Chown : String → Int → Int → Option String

/-- The observable effects of a run: the remote invocations made, the lines
printed to standard output, the files written (path and content, one entry for
every `ioutil.WriteFile` that returned without error) and the ownership changes
made (one entry for every `os.Chown` that returned without error). -/
structure World where
  trace : List Call
  stdout : List String
  writes : List (String × String)
  chowns : List (String × Int × Int)
deriving DecidableEq, Repr

/-- The state in which `main` starts. -/
def World.init : World := ⟨[], [], [], []⟩

/-- How a function of the program ends: it returns, calls `os.Exit`, or panics. -/
inductive Outcome where
  | returned
  | exit (code : Nat)
  | panic (msg : String)
deriving DecidableEq, Repr

/-- The loop `for _, member := range members` of the team filter: a member is
appended when `UserInTeam` says so. -/
def syncKeys.filterTeam (gh : Client) (ticks : Nat) (team : Team) :
    List User → List User → List Call → List User × List Call
  | [], membersFiltered, tr => (membersFiltered, tr)
  | member :: rest, membersFiltered, tr =>
    let r := UserInTeam gh ticks member team tr
    syncKeys.filterTeam gh ticks team rest
      (if r.1 then membersFiltered ++ [member] else membersFiltered) r.2

/-- The loop `for _, team := range teams` of `syncKeys`: an error of
`GetTeamByName` ends the process with status 1.  The team is a pointer; only
`GetID` is applied to it, which on a nil pointer gives what it gives on a team
without fields. -/
def syncKeys.teams (gh : Client) (ticks : Nat) (org : String) (members : List User) :
    List String → List User → List Call → Except Outcome (List User) × List Call
  | [], membersFiltered, tr => (.ok membersFiltered, tr)
  | name :: rest, membersFiltered, tr =>
    match GetTeamByName gh ticks org name tr with
    | ((_, some _), tr1) => (.error (.exit 1), tr1)
    | ((team, none), tr1) =>
      let r := syncKeys.filterTeam gh ticks (team.getD ⟨none, none⟩) members membersFiltered tr1
      syncKeys.teams gh ticks org members rest r.1 r.2

/-- The loop `for _, repo := range repos` of `syncKeys`: the collaborators of
every repository are appended; an error panics. -/
def syncKeys.repos (gh : Client) (ticks : Nat) (org : String) :
    List String → List User → List Call → Except Outcome (List User) × List Call
  | [], membersFiltered, tr => (.ok membersFiltered, tr)
  | repo :: rest, membersFiltered, tr =>
    match GetRepoCollaborators gh ticks org repo tr with
    | ((_, some err), tr1) => (.error (.panic err), tr1)
    | ((collaborators, none), tr1) =>
      syncKeys.repos gh ticks org rest
        (collaborators.foldl (fun acc collaborator => acc ++ [collaborator]) membersFiltered)
        tr1

/-- The first part of `syncKeys` (up to the comment "Fetch public keys of
filtered members"): the value of `membersFiltered`, or the way the process
ended before. -/
def syncKeys.membersFiltered (cfg : Config) (gh : Client) (ticks fuel : Nat)
    (tr : List Call) : Option (Except Outcome (List User) × List Call) :=
  match ListOrgMembers gh ticks fuel cfg.cliOrg tr with
  | none => none
  | some ((_, some _), tr1) => some (.error (.exit 1), tr1)
  | some ((members, none), tr1) =>
    let r :=
      if cfg.cliTeam ≠ "" then
        syncKeys.teams gh ticks cfg.cliOrg members (Split cfg.cliTeam ',') [] tr1
      else if cfg.cliRepo = "" then
        (.ok (members.foldl (fun acc member => acc ++ [member]) []), tr1)
      else (.ok [], tr1)
    match r with
    | (.error o, tr2) => some (.error o, tr2)
    | (.ok membersFiltered, tr2) =>
      if cfg.cliRepo ≠ "" then
        some (syncKeys.repos gh ticks cfg.cliOrg (Split cfg.cliRepo ',') membersFiltered tr2)
      else some (.ok membersFiltered, tr2)

/-- The loop "Fetch public keys of filtered members" of `syncKeys`. -/
def syncKeys.keys (gh : Client) (ticks : Nat) :
    List User → List Key → List Call → Except Outcome (List Key) × List Call
  | [], keys, tr => (.ok keys, tr)
  | member :: rest, keys, tr =>
    match GetUserSSHKeys gh ticks member tr with
    | ((_, some _), tr1) => (.error (.exit 1), tr1)
    | ((memberKeys, none), tr1) => syncKeys.keys gh ticks rest (keys ++ memberKeys) tr1

/-- The last part of `syncKeys`: render, write the file (`0600` is the mode
argument of `ioutil.WriteFile`), look the owner up and change the ownership of
the file.  A call that returns an error ends the process with status 1 and
leaves no entry in the state. -/
def syncKeys.save (cfg : Config) (os : OS) (keys : List Key) (w : World) : Outcome × World :=
  let authorizedKeys := RenderAuthorizedKeys keys
  match os.WriteFile cfg.cliFile authorizedKeys 0o600 with
  | some _ => (.exit 1, w)
  | none =>
    let w1 : World := ⟨w.trace, w.stdout, w.writes ++ [(cfg.cliFile, authorizedKeys)], w.chowns⟩
    match os.Lookup cfg.cliOwner with
    | .error _ => (.exit 1, w1)
    | .ok userData =>
      match os.Atoi userData.1 with
      | .error _ => (.exit 1, w1)
      | .ok uid =>
        match os.Atoi userData.2 with
        | .error _ => (.exit 1, w1)
        | .ok gid =>
          match os.Chown cfg.cliFile uid gid with
          | some _ => (.exit 1, w1)
          | none =>
            (.returned, ⟨w1.trace, w1.stdout, w1.writes, w1.chowns ++ [(cfg.cliFile, uid, gid)]⟩)

/-- One sync cycle: `syncKeys`. -/
def syncKeys (cfg : Config) (gh : Client) (os : OS) (ticks fuel : Nat) (w : World) :
    Option (Outcome × World) :=
  match syncKeys.membersFiltered cfg gh ticks fuel w.trace with
  | none => none
  | some (.error o, tr) => some (o, ⟨tr, w.stdout, w.writes, w.chowns⟩)
  | some (.ok membersFiltered, tr) =>
    match syncKeys.keys gh ticks membersFiltered [] tr with
    | (.error o, tr1) => some (o, ⟨tr1, w.stdout, w.writes, w.chowns⟩)
    | (.ok keys, tr1) => some (syncKeys.save cfg os keys ⟨tr1, w.stdout, w.writes, w.chowns⟩)

/-- The daemon loop `for { syncKeys(ctx, gh); <-limiter }`, cut after `cycles`
cycles: the loop has no exit of its own, so a run that is still going is `none`. -/
def main.daemon (cfg : Config) (gh : Client) (os : OS) (ticks fuel : Nat) :
    Nat → World → Option (Outcome × World)
  | 0, _ => none
  | cycles + 1, w =>
    match syncKeys cfg gh os ticks fuel w with
    | some (.returned, w1) => main.daemon cfg gh os ticks fuel cycles w1
    | r => r

/-- The entry point `main`, after `kingpin.Parse` has filled the flags. -/
def main (cfg : Config) (gh : Client) (os : OS) (ticks fuel cycles : Nat) :
    Option (Outcome × World) :=
  if cfg.cliRepo ≠ "" ∧ cfg.cliTeam ≠ "" then
    some (.exit 1, ⟨[], ["Can not specify both --team and --repo flags\n"], [], []⟩)
  else if cfg.cliDaemon = true then main.daemon cfg gh os ticks fuel cycles World.init
  else syncKeys cfg gh os ticks fuel World.init

/-! ## Test doubles of the remote -/

/-- Index, from 0, of the page a request for `page` denotes: the remote numbers
its pages from 1, and a request without a page number (`0`) is for the first. -/
def pageIndex (page : Nat) : Nat := page - 1

/-- The page number the cursors lead to for the page of index `i`: the first
page is asked for without a number, the page of index `i` carries the cursor
`i + 2` to its successor. -/
def pageRequest (i : Nat) : Nat := if i = 0 then 0 else i + 1

/-- A listing cut in pages, as the remote serves it: every page but the last
carries the number of the next one, the last carries `0`. -/
def servePage {α : Type} (pages : List (List α)) (page : Nat) : Page α :=
  ⟨pages.getD (pageIndex page) [],
    if pageIndex page + 1 < pages.length then pageIndex page + 2 else 0⟩

/-- A remote that answers from fixed tables, whatever was asked before. -/
def staticClient (members : List (List User)) (teams : List (List Team))
    (collaborators : String → List (List User))
    (membership : Int → String → Except String Membership)
    (keys : String → List (List GHKey)) : Client where
  ListMembers := fun _ _ page => .ok (servePage members page)
  ListTeams := fun _ _ page => .ok (servePage teams page)
  ListCollaborators := fun _ _ repo page => .ok (servePage (collaborators repo) page)
  GetTeamMembership := fun _ team user => membership team user
  ListKeys := fun _ user page => .ok (servePage (keys user) page)

/-- A remote that fails every request `fails` times before it lets the
request through to `gh`. -/
def flakyClient (fails : Call → Nat) (gh : Client) : Client where
  ListMembers := fun tr org page =>
    if tr.count (Call.ListMembers org page) < fails (Call.ListMembers org page) then
      .error "502 Bad Gateway"
    else gh.ListMembers tr org page
  ListTeams := fun tr org page =>
    if tr.count (Call.ListTeams org page) < fails (Call.ListTeams org page) then
      .error "502 Bad Gateway"
    else gh.ListTeams tr org page
  ListCollaborators := fun tr org repo page =>
    if tr.count (Call.ListCollaborators org repo page)
        < fails (Call.ListCollaborators org repo page) then
      .error "502 Bad Gateway"
    else gh.ListCollaborators tr org repo page
  GetTeamMembership := fun tr team user =>
    if tr.count (Call.GetTeamMembership team user) < fails (Call.GetTeamMembership team user) then
      .error "502 Bad Gateway"
    else gh.GetTeamMembership tr team user
  ListKeys := fun tr user page =>
    if tr.count (Call.ListKeys user page) < fails (Call.ListKeys user page) then
      .error "502 Bad Gateway"
    else gh.ListKeys tr user page

/-- Sample identities. -/
def alice : User := ⟨some "alice", some 1⟩

/-- Sample identity. -/
def bob : User := ⟨some "bob", some 2⟩

/-- Sample identity. -/
def carol : User := ⟨some "carol", some 3⟩

/-- Sample teams. -/
def devs : Team := ⟨some 10, some "devs"⟩

/-- Sample team. -/
def ops : Team := ⟨some 20, some "ops"⟩

/-- Sample memberships: alice is active in both teams, bob is active in `ops`
and pending in `devs`, carol is in no team. -/
def sampleMembership (team : Int) (user : String) : Except String Membership :=
  if user = "alice" ∧ (team = 10 ∨ team = 20) then .ok ⟨some "active"⟩
  else if user = "bob" ∧ team = 20 then .ok ⟨some "active"⟩
  else if user = "bob" ∧ team = 10 then .ok ⟨some "pending"⟩
  else .error "GET https://api.github.com/teams/memberships: 404 Not Found []"

/-- Sample keys: alice has two keys on two pages, bob one, anybody else none. -/
def sampleKeys (user : String) : List (List GHKey) :=
  if user = "alice" then [[⟨some 7, some "ssh-rsa AAAA"⟩], [⟨some 8, some "ssh-rsa BBBB"⟩]]
  else if user = "bob" then [[⟨some 9, some "ssh-ed25519 CCCC"⟩]]
  else [[]]

/-- Sample remote: members on two pages, teams on two pages, the collaborators
of every repository on two pages. -/
def sampleClient : Client :=
  staticClient [[alice, bob], [carol]] [[devs], [ops]] (fun _ => [[alice], [bob]])
    sampleMembership sampleKeys

/-- A remote whose listings all fit on one page. -/
def smallClient : Client :=
  staticClient [[alice, bob, carol]] [[devs, ops]] (fun _ => [[alice, bob]])
    sampleMembership (fun user => [(sampleKeys user).flatten])

/-- An operating system on which every call succeeds. -/
def sampleOS : OS where
  WriteFile := fun _ _ _ => none
  Lookup := fun _ => .ok ("1000", "1000")
  Atoi := fun _ => .ok 1000
  Chown := fun _ _ _ => none

/-- A configuration with a team filter. -/
def teamConfig : Config := ⟨"o", "devs,ops", "", "/etc/authorized_keys", "root", false⟩

/-- A configuration with a repository filter. -/
def repoConfig : Config := ⟨"o", "", "site,api", "/etc/authorized_keys", "root", false⟩

/-- The team a name of `teamConfig` resolves to at the sample remote. -/
def sampleTeamOf (name : String) : Team := if name = "devs" then devs else ops


/-! ## Rendering -/

/-- Writing the records of `ks` to a buffer that holds `acc` leaves `acc`
followed by the rendering of `ks`. -/
theorem render_foldl (ks : List Key) (acc : String) :
    ks.foldl (fun buffer key => buffer ++ ("# " ++ key.Comment ++ "\n" ++ key.Key ++ "\n")) acc
      = acc ++ RenderAuthorizedKeys ks := by
  induction ks generalizing acc with
  | nil => simp [RenderAuthorizedKeys]
  | cons k ks ih =>
    simp only [RenderAuthorizedKeys, List.foldl_cons]
    rw [ih, ih ("" ++ _)]
    simp [String.append_assoc]

/-- The fold behind `String.join`, started from any string. -/
theorem join_foldl (l : List String) (acc : String) :
    l.foldl (fun r s => r ++ s) acc = acc ++ String.join l := by
  induction l generalizing acc with
  | nil => simp [String.join]
  | cons s l ih =>
    simp only [String.join, List.foldl_cons]
    rw [ih, ih ("" ++ s)]
    simp [String.append_assoc]

/-- Claim C1: for every list of keys, the empty one included,
`RenderAuthorizedKeys` is the concatenation in list order of one record per
key, the comment line (a hash sign, a blank, the comment, a newline) followed by
the key line (the key, a newline), with nothing before, between or after the
records: it is the join of the records, the empty list renders to the empty
string, a first key contributes its record in front of the rendering of the
rest, and the two keys of `TestRenderAuthorizedKeys` render to the expected
text. -/
theorem RenderAuthorizedKeys_records :
    (∀ ks : List Key, RenderAuthorizedKeys ks
        = String.join (ks.map (fun k => "# " ++ k.Comment ++ "\n" ++ k.Key ++ "\n")))
    ∧ RenderAuthorizedKeys [] = ""
    ∧ (∀ (k : Key) (ks : List Key), RenderAuthorizedKeys (k :: ks)
        = "# " ++ k.Comment ++ "\n" ++ k.Key ++ "\n" ++ RenderAuthorizedKeys ks)
    ∧ RenderAuthorizedKeys
        [⟨"comment-1", "ssh-rsa aaaabbbbcccc"⟩, ⟨"comment-2", "ssh-rsa ddddeeeeffffgggg"⟩]
        = "# comment-1\nssh-rsa aaaabbbbcccc\n# comment-2\nssh-rsa ddddeeeeffffgggg\n" := by
  have hcons : ∀ (k : Key) (ks : List Key), RenderAuthorizedKeys (k :: ks)
        = "# " ++ k.Comment ++ "\n" ++ k.Key ++ "\n" ++ RenderAuthorizedKeys ks := by
    intro k ks
    show List.foldl _ _ (k :: ks) = _
    rw [List.foldl_cons, render_foldl]
    simp [String.append_assoc]
  refine ⟨?_, rfl, hcons, by decide⟩
  intro ks
  induction ks with
  | nil => rfl
  | cons k ks ih =>
    rw [hcons, ih]
    simp only [List.map_cons, String.join, List.foldl_cons]
    rw [join_foldl, join_foldl]
    simp [String.append_assoc]



/-! ## The retry loop -/

/-- A loop whose call fails `N` times with errors that are retried and then
gets an answer that ends it (a value, or an error that is not retried) makes
`N + 1` invocations and ends with that answer, when the ticker delivers more
than `N` ticks. -/
theorem tickerLoop_answer {α : Type} (call : List Call → Except String α) (c : Call)
    (retry : String → Bool) (r : Except String α) (N : Nat) :
    ∀ (ticks : Nat) (cur : Option α × Option String) (tr : List Call), N < ticks →
      (∀ k, k < N → ∃ e, call (tr ++ List.replicate k c) = .error e ∧ retry e = true) →
      call (tr ++ List.replicate N c) = r →
      (∀ e, r = .error e → retry e = false) →
      tickerLoop call c retry ticks cur tr = (received r, tr ++ List.replicate (N + 1) c) := by
  induction N with
  | zero =>
    intro ticks cur tr hN _ hlast hstop
    obtain ⟨t, rfl⟩ : ∃ t, ticks = t + 1 := ⟨ticks - 1, by omega⟩
    simp only [List.replicate_zero, List.append_nil] at hlast
    cases r with
    | ok v => simp [tickerLoop, hlast, received]
    | error e => simp [tickerLoop, hlast, received, hstop e rfl]
  | succ N ih =>
    intro ticks cur tr hN hfail hlast hstop
    obtain ⟨t, rfl⟩ : ∃ t, ticks = t + 1 := ⟨ticks - 1, by omega⟩
    obtain ⟨e, he, hre⟩ := hfail 0 (by omega)
    simp only [List.replicate_zero, List.append_nil] at he
    have hshift : ∀ k, (tr ++ [c]) ++ List.replicate k c = tr ++ List.replicate (k + 1) c := by
      intro k
      simp [List.replicate_succ]
    have := ih t (none, some e) (tr ++ [c]) (by omega)
      (fun k hk => by rw [hshift]; exact hfail (k + 1) (by omega))
      (by rw [hshift]; exact hlast) hstop
    rw [hshift] at this
    simp only [tickerLoop, he, hre, if_true]
    exact this

/-- A loop that starts with a nil value ends with a value only when its last
invocation was answered with that value. -/
theorem tickerLoop_value {α : Type} (call : List Call → Except String α) (c : Call)
    (retry : String → Bool) :
    ∀ (ticks : Nat) (err : Option String) (tr : List Call) (v : α),
      (tickerLoop call c retry ticks (none, err) tr).1.1 = some v →
      ∃ h, (tickerLoop call c retry ticks (none, err) tr).2 = h ++ [c] ∧ call h = .ok v := by
  intro ticks
  induction ticks with
  | zero => intro err tr v h; simp [tickerLoop] at h
  | succ t ih =>
    intro err tr v h
    simp only [tickerLoop] at h ⊢
    cases hc : call tr with
    | ok w =>
      simp only [hc] at h ⊢
      simp only [Option.some.injEq] at h
      exact ⟨tr, rfl, by rw [hc, h]⟩
    | error e =>
      simp only [hc] at h ⊢
      by_cases hr : retry e = true
      · simp only [hr, if_true] at h ⊢
        exact ih _ _ _ h
      · simp [hr] at h

/-- The loop makes at most `ticks` invocations, every one of them the call `c`. -/
theorem tickerLoop_trace_length {α : Type} (call : List Call → Except String α) (c : Call)
    (retry : String → Bool) :
    ∀ (ticks : Nat) (cur : Option α × Option String) (tr : List Call),
      ∃ n, n ≤ ticks ∧ (tickerLoop call c retry ticks cur tr).2 = tr ++ List.replicate n c := by
  intro ticks
  induction ticks with
  | zero => intro cur tr; exact ⟨0, le_refl _, by simp [tickerLoop]⟩
  | succ t ih =>
    intro cur tr
    simp only [tickerLoop]
    cases hc : call tr with
    | ok w => exact ⟨1, by omega, by simp⟩
    | error e =>
      by_cases hr : retry e = true
      · simp only [hr, if_true]
        obtain ⟨n, hn, h⟩ := ih (none, some e) (tr ++ [c])
        exact ⟨n + 1, by omega, by rw [h]; simp [List.replicate_succ]⟩
      · simp only [hr]
        exact ⟨1, by omega, by simp⟩


/-- A loop whose every call fails with an error that is retried uses up its
ticks: it makes one invocation per tick and ends with a nil value. -/
theorem tickerLoop_exhausted {α : Type} (call : List Call → Except String α) (c : Call)
    (retry : String → Bool) :
    ∀ (ticks : Nat) (err : Option String) (tr : List Call),
      (∀ k, k < ticks → ∃ e, call (tr ++ List.replicate k c) = .error e ∧ retry e = true) →
      (tickerLoop call c retry ticks (none, err) tr).1.1 = none
        ∧ (tickerLoop call c retry ticks (none, err) tr).2 = tr ++ List.replicate ticks c := by
  intro ticks
  induction ticks with
  | zero => intro err tr _; simp [tickerLoop]
  | succ t ih =>
    intro err tr hfail
    obtain ⟨e, he, hre⟩ := hfail 0 (by omega)
    simp only [List.replicate_zero, List.append_nil] at he
    have hshift : ∀ k, (tr ++ [c]) ++ List.replicate k c = tr ++ List.replicate (k + 1) c := by
      intro k
      simp [List.replicate_succ]
    have h := ih (some e) (tr ++ [c])
      (fun k hk => by rw [hshift]; exact hfail (k + 1) (by omega))
    rw [hshift] at h
    simp only [tickerLoop, he, hre, if_true]
    exact h

/-! ## Configuration -/

/-- Claim C2: when both the team filter and the repository filter are non-empty,
`main` prints the error and exits with status 1 before any remote call: the
trace of remote invocations is empty, no file is written and no ownership is
changed, whatever the remote, the operating system, the ticker and the daemon
flag are. -/
theorem main_rejects_team_and_repo (cfg : Config) (gh : Client) (os : OS)
    (ticks fuel cycles : Nat) (hrepo : cfg.cliRepo ≠ "") (hteam : cfg.cliTeam ≠ "") :
    ∃ w, main cfg gh os ticks fuel cycles = some (Outcome.exit 1, w)
      ∧ w.trace = [] ∧ w.writes = [] ∧ w.chowns = []
      ∧ w.stdout = ["Can not specify both --team and --repo flags\n"] := by
  refine ⟨⟨[], ["Can not specify both --team and --repo flags\n"], [], []⟩, ?_, rfl, rfl, rfl, rfl⟩
  simp [main, hrepo, hteam]

/-- Claim C2 at a daemon configuration with the filters `devs` and `site`. -/
theorem main_rejects_team_and_repo_witness :
    ∃ w, main ⟨"o", "devs", "site", "/f", "root", true⟩ sampleClient sampleOS 1 5 3
        = some (Outcome.exit 1, w)
      ∧ w.trace = [] ∧ w.writes = [] ∧ w.chowns = []
      ∧ w.stdout = ["Can not specify both --team and --repo flags\n"] :=
  main_rejects_team_and_repo ⟨"o", "devs", "site", "/f", "root", true⟩ sampleClient sampleOS
    1 5 3 (by decide) (by decide)

/-! ## Team membership -/

/-- Claim C4: `UserInTeam` answers true exactly when the membership finally
obtained from the remote lookup has the state `active`.  In terms of the remote:
when the lookup is answered, after `N` errors that are retried, with an answer
that ends the loop (a membership, or an error whose text contains
`404 Not Found`), `UserInTeam` makes `N + 1` invocations and answers true if and
only if that answer is a membership whose state is `active`, so that an active
membership gives true and every other state, a membership without state and a
not-found answer give false; when every tick is answered with an error that is
retried, no membership is obtained and the answer is false.  In terms of the
loop: the answer is true exactly when the loop ends with a membership whose
state is `active`, it is false when the loop ends with a nil membership, and a
membership the loop ends with is the value the remote answered the last
invocation with. -/
theorem UserInTeam_iff_active (gh : Client) (ticks : Nat) (user : User) (team : Team)
    (tr : List Call) :
    (∀ (N : Nat) (r : Except String Membership), N < ticks →
        (∀ k, k < N → ∃ e,
          gh.GetTeamMembership
              (tr ++ List.replicate k (Call.GetTeamMembership team.GetID user.GetLogin))
              team.GetID user.GetLogin = .error e
            ∧ Contains e "404 Not Found" = false) →
        gh.GetTeamMembership
            (tr ++ List.replicate N (Call.GetTeamMembership team.GetID user.GetLogin))
            team.GetID user.GetLogin = r →
        (∀ e, r = .error e → Contains e "404 Not Found" = true) →
        ((UserInTeam gh ticks user team tr).1 = true ↔
            ∃ m, r = .ok m ∧ m.State = some "active")
          ∧ (UserInTeam gh ticks user team tr).2
            = tr ++ List.replicate (N + 1) (Call.GetTeamMembership team.GetID user.GetLogin))
    ∧ ((∀ k, k < ticks → ∃ e,
          gh.GetTeamMembership
              (tr ++ List.replicate k (Call.GetTeamMembership team.GetID user.GetLogin))
              team.GetID user.GetLogin = .error e
            ∧ Contains e "404 Not Found" = false) →
        UserInTeam gh ticks user team tr
          = (false,
              tr ++ List.replicate ticks (Call.GetTeamMembership team.GetID user.GetLogin)))
    ∧ ((UserInTeam gh ticks user team tr).1 = true ↔
        ∃ m, (UserInTeam.lookup gh ticks user team tr).1.1 = some m ∧ m.State = some "active")
    ∧ ((UserInTeam.lookup gh ticks user team tr).1.1 = none →
        (UserInTeam gh ticks user team tr).1 = false)
    ∧ (∀ m, (UserInTeam.lookup gh ticks user team tr).1.1 = some m →
        ∃ h, (UserInTeam gh ticks user team tr).2
            = h ++ [Call.GetTeamMembership team.GetID user.GetLogin]
          ∧ gh.GetTeamMembership h team.GetID user.GetLogin = .ok m) := by
  refine ⟨?_, ?_, ?_, ?_, ?_⟩
  · intro N r hN hfail hlast hstop
    have h := tickerLoop_answer (fun h => gh.GetTeamMembership h team.GetID user.GetLogin)
      (Call.GetTeamMembership team.GetID user.GetLogin)
      (fun e => Contains e "404 Not Found" == false) r N ticks (none, none) tr hN
      (fun k hk => by
        obtain ⟨e, he, hne⟩ := hfail k hk
        exact ⟨e, he, by simp [hne]⟩)
      hlast (by intro e he; simp [hstop e he])
    simp only [UserInTeam, UserInTeam.lookup, h]
    refine ⟨?_, trivial⟩
    cases r with
    | error e => simp [received, Membership.GetState]
    | ok m =>
      cases hs : m.State with
      | none => simp [received, Membership.GetState, hs]
      | some s => simp [received, Membership.GetState, hs]
  · intro hfail
    have h := tickerLoop_exhausted (fun h => gh.GetTeamMembership h team.GetID user.GetLogin)
      (Call.GetTeamMembership team.GetID user.GetLogin)
      (fun e => Contains e "404 Not Found" == false) ticks none tr
      (fun k hk => by
        obtain ⟨e, he, hne⟩ := hfail k hk
        exact ⟨e, he, by simp [hne]⟩)
    simp only [UserInTeam, UserInTeam.lookup, h.1, h.2, Membership.GetState]
    simp
  · simp only [UserInTeam]
    cases hm : (UserInTeam.lookup gh ticks user team tr).1.1 with
    | none => simp [Membership.GetState]
    | some m =>
      cases hs : m.State with
      | none => simp [Membership.GetState, hs]
      | some s => simp [Membership.GetState, hs]
  · intro hm
    simp [UserInTeam, hm, Membership.GetState]
  · intro m hm
    exact tickerLoop_value _ _ _ ticks none tr m hm

/-- Claim C4 at a remote that fails every request twice, with three ticks: bob,
active in `ops`, gives true after three invocations; bob, pending in `devs`,
gives false; carol, answered with a not-found error, gives false; and with two
ticks only no membership of bob is obtained and the answer is false. -/
theorem UserInTeam_iff_active_witness :
    (UserInTeam (flakyClient (fun _ => 2) sampleClient) 3 bob ops []).1 = true
    ∧ (UserInTeam (flakyClient (fun _ => 2) sampleClient) 3 bob ops []).2
        = [] ++ List.replicate (2 + 1) (Call.GetTeamMembership ops.GetID bob.GetLogin)
    ∧ ¬ (UserInTeam (flakyClient (fun _ => 2) sampleClient) 3 bob devs []).1 = true
    ∧ ¬ (UserInTeam (flakyClient (fun _ => 2) sampleClient) 3 carol ops []).1 = true
    ∧ UserInTeam (flakyClient (fun _ => 2) sampleClient) 2 bob ops []
        = (false, [] ++ List.replicate 2 (Call.GetTeamMembership ops.GetID bob.GetLogin)) :=
  have hbob := (UserInTeam_iff_active (flakyClient (fun _ => 2) sampleClient) 3 bob ops []).1
    2 (.ok ⟨some "active"⟩) (by decide)
    (fun k hk => by interval_cases k <;> exact ⟨_, rfl, by decide⟩) rfl
    (by intro e he; cases he)
  have hpending :=
    (UserInTeam_iff_active (flakyClient (fun _ => 2) sampleClient) 3 bob devs []).1
      2 (.ok ⟨some "pending"⟩) (by decide)
      (fun k hk => by interval_cases k <;> exact ⟨_, rfl, by decide⟩) rfl
      (by intro e he; cases he)
  have hcarol :=
    (UserInTeam_iff_active (flakyClient (fun _ => 2) sampleClient) 3 carol ops []).1
      2 (.error "GET https://api.github.com/teams/memberships: 404 Not Found []") (by decide)
      (fun k hk => by interval_cases k <;> exact ⟨_, rfl, by decide⟩) rfl
      (by intro e he; cases he; decide)
  ⟨hbob.1.mpr ⟨⟨some "active"⟩, rfl, rfl⟩, hbob.2,
    (fun h => by
      obtain ⟨m, hm, hs⟩ := hpending.1.mp h
      cases hm
      exact absurd hs (by decide)),
    (fun h => by
      obtain ⟨m, hm, _⟩ := hcarol.1.mp h
      cases hm),
    (UserInTeam_iff_active (flakyClient (fun _ => 2) sampleClient) 2 bob ops []).2.1
      (fun k hk => by interval_cases k <;> exact ⟨_, rfl, by decide⟩)⟩

/-- Claim C5: when the first membership lookup is answered with an error whose
text contains `404 Not Found`, `UserInTeam` makes that one remote invocation
and no other, and answers false (the ticker delivering its first tick). -/
theorem UserInTeam_not_found (gh : Client) (ticks : Nat) (user : User) (team : Team)
    (tr : List Call) (e : String) (hticks : 0 < ticks)
    (hfirst : gh.GetTeamMembership tr team.GetID user.GetLogin = .error e)
    (hshape : Contains e "404 Not Found" = true) :
    UserInTeam gh ticks user team tr
      = (false, tr ++ [Call.GetTeamMembership team.GetID user.GetLogin]) := by
  have h := tickerLoop_answer (fun h => gh.GetTeamMembership h team.GetID user.GetLogin)
    (Call.GetTeamMembership team.GetID user.GetLogin)
    (fun e => Contains e "404 Not Found" == false) (.error e) 0 ticks (none, none) tr hticks
    (fun k hk => absurd hk (Nat.not_lt_zero k)) (by simpa using hfirst)
    (by intro e' he'; cases he'; simp [hshape])
  simp only [UserInTeam, UserInTeam.lookup, h, received, Membership.GetState]
  simp

/-- Claim C5 at the sample remote: carol is in no team. -/
theorem UserInTeam_not_found_witness :
    0 < 5 ∧ UserInTeam sampleClient 5 carol ops []
      = (false, [] ++ [Call.GetTeamMembership ops.GetID carol.GetLogin]) :=
  ⟨by decide,
    UserInTeam_not_found sampleClient 5 carol ops []
      "GET https://api.github.com/teams/memberships: 404 Not Found []" (by decide) rfl
      (by decide)⟩


/-! ## Retried listings -/

/-- Appending the image of every element, one at a time, is `map`. -/
theorem foldl_append_singleton {α β : Type} (f : α → β) (l : List α) (init : List β) :
    l.foldl (fun acc x => acc ++ [f x]) init = init ++ l.map f := by
  induction l generalizing init with
  | nil => simp
  | cons x l ih => simp [ih]

/-- The keys `GetUserSSHKeys` returns when its listing call fails `N` times and
is then answered with the page `v`. -/
theorem GetUserSSHKeys_answer (gh : Client) (ticks N : Nat) (user : User) (tr : List Call)
    (v : Page GHKey) (hN : N < ticks)
    (hfail : ∀ k, k < N → ∃ e,
      gh.ListKeys (tr ++ List.replicate k (Call.ListKeys user.GetLogin 0)) user.GetLogin 0
        = .error e)
    (hlast : gh.ListKeys (tr ++ List.replicate N (Call.ListKeys user.GetLogin 0))
        user.GetLogin 0 = .ok v) :
    GetUserSSHKeys gh ticks user tr
      = ((v.items.map (fun item => Key.mk (keyComment user item) item.GetKey), none),
          tr ++ List.replicate (N + 1) (Call.ListKeys user.GetLogin 0)) := by
  have h := tickerLoop_answer (fun h => gh.ListKeys h user.GetLogin 0)
    (Call.ListKeys user.GetLogin 0) (fun _ => true) (.ok v) N ticks (none, none) tr hN
    (fun k hk => by obtain ⟨e, he⟩ := hfail k hk; exact ⟨e, he, rfl⟩) hlast
    (by intro e he; cases he)
  simp only [GetUserSSHKeys, h, received, itemsOf]
  rw [foldl_append_singleton (fun item => Key.mk (keyComment user item) item.GetKey)]
  simp

/-- The collaborators `GetRepoCollaborators` returns when its listing call fails
`N` times and is then answered with the page `v`. -/
theorem GetRepoCollaborators_answer (gh : Client) (ticks N : Nat) (org repo : String)
    (tr : List Call) (v : Page User) (hN : N < ticks)
    (hfail : ∀ k, k < N → ∃ e,
      gh.ListCollaborators (tr ++ List.replicate k (Call.ListCollaborators org repo 0)) org repo 0
        = .error e)
    (hlast : gh.ListCollaborators (tr ++ List.replicate N (Call.ListCollaborators org repo 0))
        org repo 0 = .ok v) :
    GetRepoCollaborators gh ticks org repo tr
      = ((v.items, none), tr ++ List.replicate (N + 1) (Call.ListCollaborators org repo 0)) := by
  have h := tickerLoop_answer (fun h => gh.ListCollaborators h org repo 0)
    (Call.ListCollaborators org repo 0) (fun _ => true) (.ok v) N ticks (none, none) tr hN
    (fun k hk => by obtain ⟨e, he⟩ := hfail k hk; exact ⟨e, he, rfl⟩) hlast
    (by intro e he; cases he)
  simp only [GetRepoCollaborators, h, received, itemsOf]

/-- The team `GetTeamByName` returns when its listing call fails `N` times and
is then answered with the page `v`: the first team of the page with the name,
or the error that there is none. -/
theorem GetTeamByName_answer (gh : Client) (ticks N : Nat) (org name : String)
    (tr : List Call) (v : Page Team) (hN : N < ticks)
    (hfail : ∀ k, k < N → ∃ e,
      gh.ListTeams (tr ++ List.replicate k (Call.ListTeams org 0)) org 0 = .error e)
    (hlast : gh.ListTeams (tr ++ List.replicate N (Call.ListTeams org 0)) org 0 = .ok v) :
    GetTeamByName gh ticks org name tr
      = ((match v.items.find? (fun team => team.GetName == name) with
          | some team => (some team, none)
          | none => (none, some ("Team " ++ name ++ " not part of organisation " ++ org))),
          tr ++ List.replicate (N + 1) (Call.ListTeams org 0)) := by
  have h := tickerLoop_answer (fun h => gh.ListTeams h org 0)
    (Call.ListTeams org 0) (fun _ => true) (.ok v) N ticks (none, none) tr hN
    (fun k hk => by obtain ⟨e, he⟩ := hfail k hk; exact ⟨e, he, rfl⟩) hlast
    (by intro e he; cases he)
  simp only [GetTeamByName, h, received, itemsOf]
  cases v.items.find? (fun team => team.GetName == name) <;> rfl

/-- Claim C6, amended: when the ticker delivers more than `N` ticks and the
listing call fails `N` times and is then answered with the page `v`, each of
`GetUserSSHKeys`, `GetRepoCollaborators` and `GetTeamByName` makes exactly
`N + 1` invocations; the first two return what they compute from `v` with a nil
error; `GetTeamByName` returns the first team of `v` with the name and a nil
error when there is one, and a nil team with the error that the team is not
part of the organisation when there is none. -/
theorem retried_lookups_answer (gh : Client) (ticks N : Nat) (tr : List Call)
    (hN : N < ticks) :
    (∀ (user : User) (v : Page GHKey),
      (∀ k, k < N → ∃ e,
        gh.ListKeys (tr ++ List.replicate k (Call.ListKeys user.GetLogin 0)) user.GetLogin 0
          = .error e) →
      gh.ListKeys (tr ++ List.replicate N (Call.ListKeys user.GetLogin 0)) user.GetLogin 0
        = .ok v →
      GetUserSSHKeys gh ticks user tr
        = ((v.items.map (fun item => Key.mk (keyComment user item) item.GetKey), none),
            tr ++ List.replicate (N + 1) (Call.ListKeys user.GetLogin 0)))
    ∧ (∀ (org repo : String) (v : Page User),
      (∀ k, k < N → ∃ e,
        gh.ListCollaborators (tr ++ List.replicate k (Call.ListCollaborators org repo 0))
          org repo 0 = .error e) →
      gh.ListCollaborators (tr ++ List.replicate N (Call.ListCollaborators org repo 0))
        org repo 0 = .ok v →
      GetRepoCollaborators gh ticks org repo tr
        = ((v.items, none),
            tr ++ List.replicate (N + 1) (Call.ListCollaborators org repo 0)))
    ∧ (∀ (org name : String) (v : Page Team),
      (∀ k, k < N → ∃ e,
        gh.ListTeams (tr ++ List.replicate k (Call.ListTeams org 0)) org 0 = .error e) →
      gh.ListTeams (tr ++ List.replicate N (Call.ListTeams org 0)) org 0 = .ok v →
      (GetTeamByName gh ticks org name tr).2
          = tr ++ List.replicate (N + 1) (Call.ListTeams org 0)
        ∧ (∀ team, v.items.find? (fun t => t.GetName == name) = some team →
            (GetTeamByName gh ticks org name tr).1 = (some team, none))
        ∧ ((∀ team ∈ v.items, team.GetName ≠ name) →
            (GetTeamByName gh ticks org name tr).1
              = (none, some ("Team " ++ name ++ " not part of organisation " ++ org)))) := by
  refine ⟨?_, ?_, ?_⟩
  · intro user v hfail hlast
    exact GetUserSSHKeys_answer gh ticks N user tr v hN hfail hlast
  · intro org repo v hfail hlast
    exact GetRepoCollaborators_answer gh ticks N org repo tr v hN hfail hlast
  · intro org name v hfail hlast
    have h := GetTeamByName_answer gh ticks N org name tr v hN hfail hlast
    refine ⟨by rw [h], ?_, ?_⟩
    · intro team hteam
      rw [h, hteam]
    · intro hnone
      have : v.items.find? (fun t => t.GetName == name) = none := by
        rw [List.find?_eq_none]
        intro t ht
        simpa using hnone t ht
      rw [h, this]

/-- Claim C6, amended, at a remote that fails every request twice, with three
ticks. -/
theorem retried_lookups_answer_witness :
    2 < 3
    ∧ GetUserSSHKeys (flakyClient (fun _ => 2) smallClient) 3 alice []
        = (([⟨"alice - 7", "ssh-rsa AAAA"⟩, ⟨"alice - 8", "ssh-rsa BBBB"⟩], none),
            [] ++ List.replicate (2 + 1) (Call.ListKeys "alice" 0))
    ∧ GetRepoCollaborators (flakyClient (fun _ => 2) smallClient) 3 "o" "site" []
        = (([alice, bob], none), [] ++ List.replicate (2 + 1) (Call.ListCollaborators "o" "site" 0))
    ∧ (GetTeamByName (flakyClient (fun _ => 2) smallClient) 3 "o" "ops" []).1 = (some ops, none)
    ∧ (GetTeamByName (flakyClient (fun _ => 2) smallClient) 3 "o" "Ops" []).1
        = (none, some "Team Ops not part of organisation o") :=
  have h := retried_lookups_answer (flakyClient (fun _ => 2) smallClient) 3 2 [] (by decide)
  ⟨by decide,
    h.1 alice ⟨[⟨some 7, some "ssh-rsa AAAA"⟩, ⟨some 8, some "ssh-rsa BBBB"⟩], 0⟩
      (fun k hk => by interval_cases k <;> exact ⟨_, rfl⟩) rfl,
    h.2.1 "o" "site" ⟨[alice, bob], 0⟩
      (fun k hk => by interval_cases k <;> exact ⟨_, rfl⟩) rfl,
    (h.2.2 "o" "ops" ⟨[devs, ops], 0⟩
      (fun k hk => by interval_cases k <;> exact ⟨_, rfl⟩) rfl).2.1 ops rfl,
    (h.2.2 "o" "Ops" ⟨[devs, ops], 0⟩
      (fun k hk => by interval_cases k <;> exact ⟨_, rfl⟩) rfl).2.2 (by decide)⟩

/-- Claim C6 as stated fails: the team listing succeeds at the first invocation
with the teams `devs` and `ops`, and `GetTeamByName` for `admins` returns an
error that is not nil. -/
theorem GetTeamByName_answer_with_error :
    smallClient.ListTeams [] "o" 0 = .ok ⟨[devs, ops], 0⟩
    ∧ GetTeamByName smallClient 1 "o" "admins" []
        = ((none, some "Team admins not part of organisation o"), [Call.ListTeams "o" 0]) :=
  ⟨rfl, by decide⟩


/-! ## Draining the member listing -/

/-- Different pages are asked for under different numbers. -/
theorem pageRequest_injective {i j : Nat} (h : pageRequest i = pageRequest j) : i = j := by
  unfold pageRequest at h
  split at h <;> split at h <;> omega

/-- The pages from index `i` on start with the page of index `i`. -/
theorem drop_flatten {α : Type} (pages : List (List α)) (i : Nat) (hi : i < pages.length) :
    (pages.drop i).flatten = pages.getD i [] ++ (pages.drop (i + 1)).flatten := by
  rw [List.drop_eq_getElem_cons hi, List.flatten_cons, List.getD_eq_getElem pages [] hi]

/-- The retries of one page: while the request has failed fewer times than the
page fails, it is made again, for the same page and with the same members; the
answer that follows is appended and its cursor is followed. -/
theorem pages_retry (gh : Client) (org : String) (cursor fails : Nat → Nat) (i : Nat)
    (answer : Page User)
    (hfail : ∀ tr, tr.count (Call.ListMembers org (cursor i)) < fails i →
      ∃ e, gh.ListMembers tr org (cursor i) = .error e)
    (hok : ∀ tr, fails i ≤ tr.count (Call.ListMembers org (cursor i)) →
      gh.ListMembers tr org (cursor i) = .ok answer)
    (f : Nat) (members : List User) :
    ∀ (d : Nat) (tr : List Call),
      tr.count (Call.ListMembers org (cursor i)) + d = fails i →
      ListOrgMembers.pages gh org (f + d + 1) (cursor i) members tr
        = if answer.NextPage = 0 then
            some (members ++ answer.items,
              tr ++ List.replicate (d + 1) (Call.ListMembers org (cursor i)))
          else
            ListOrgMembers.pages gh org f answer.NextPage (members ++ answer.items)
              (tr ++ List.replicate (d + 1) (Call.ListMembers org (cursor i))) := by
  intro d
  induction d with
  | zero =>
    intro tr hcount
    simp [ListOrgMembers.pages, hok tr (by omega)]
  | succ d ih =>
    intro tr hcount
    obtain ⟨e, he⟩ := hfail tr (by omega)
    have hstep : ListOrgMembers.pages gh org (f + (d + 1) + 1) (cursor i) members tr
        = ListOrgMembers.pages gh org (f + d + 1) (cursor i) members
            (tr ++ [Call.ListMembers org (cursor i)]) := by
      show ListOrgMembers.pages gh org ((f + d + 1) + 1) (cursor i) members tr = _
      simp [ListOrgMembers.pages, he]
    rw [hstep, ih (tr ++ [Call.ListMembers org (cursor i)])
      (by simp [List.count_append]; omega)]
    simp [List.replicate_succ]

/-- The invocations `ListOrgMembers` makes from the page of index `i` on, and
the members it collects from them. -/
theorem pages_drain (gh : Client) (org : String) (pages : List (List User))
    (cursor fails : Nat → Nat)
    (hnext : ∀ i, i + 1 < pages.length → cursor (i + 1) ≠ 0)
    (hinj : ∀ i j, i < pages.length → j < pages.length → cursor i = cursor j → i = j)
    (hfail : ∀ i tr, i < pages.length →
      tr.count (Call.ListMembers org (cursor i)) < fails i →
      ∃ e, gh.ListMembers tr org (cursor i) = .error e)
    (hok : ∀ i tr, i < pages.length →
      fails i ≤ tr.count (Call.ListMembers org (cursor i)) →
      gh.ListMembers tr org (cursor i)
        = .ok ⟨pages.getD i [], if i + 1 < pages.length then cursor (i + 1) else 0⟩) :
    ∀ (n i extra : Nat) (members : List User) (tr : List Call),
      i + n + 1 = pages.length →
      (∀ j, i ≤ j → j < pages.length → tr.count (Call.ListMembers org (cursor j)) = 0) →
      ListOrgMembers.pages gh org
          (extra + ((List.range' i (n + 1)).map (fun j => fails j + 1)).sum)
          (cursor i) members tr
        = some (members ++ (pages.drop i).flatten,
            tr ++ (List.range' i (n + 1)).flatMap
              (fun j => List.replicate (fails j + 1) (Call.ListMembers org (cursor j)))) := by
  intro n
  induction n with
  | zero =>
    intro i extra members tr hlen hfresh
    have hi : i < pages.length := by omega
    have hfuel : extra + ((List.range' i (0 + 1)).map (fun j => fails j + 1)).sum
        = extra + fails i + 1 := by
      simp [List.range'_succ]; omega
    rw [hfuel, pages_retry gh org cursor fails i _ (fun tr => hfail i tr hi)
      (fun tr => hok i tr hi) extra members (fails i) tr
      (by rw [hfresh i (le_refl i) hi]; omega)]
    have hdrop : (pages.drop i).flatten = pages.getD i [] := by
      rw [drop_flatten pages i hi, List.drop_of_length_le (by omega)]
      simp
    rw [if_neg (show ¬ i + 1 < pages.length by omega), if_pos rfl, hdrop]
    simp [List.range'_succ]
  | succ n ih =>
    intro i extra members tr hlen hfresh
    have hi : i < pages.length := by omega
    have hfuel : extra + ((List.range' i (n + 1 + 1)).map (fun j => fails j + 1)).sum
        = (extra + ((List.range' (i + 1) (n + 1)).map (fun j => fails j + 1)).sum)
            + fails i + 1 := by
      rw [List.range'_succ i (n + 1)]
      simp only [List.map_cons, List.sum_cons]
      omega
    rw [hfuel, pages_retry gh org cursor fails i _ (fun tr => hfail i tr hi)
      (fun tr => hok i tr hi) _ members (fails i) tr
      (by rw [hfresh i (le_refl i) hi]; omega)]
    rw [if_pos (show i + 1 < pages.length by omega), if_neg (hnext i (by omega))]
    rw [ih (i + 1) extra (members ++ pages.getD i [])
      (tr ++ List.replicate (fails i + 1) (Call.ListMembers org (cursor i)))
      (by omega)
      (by
        intro j hj hjlen
        have hji : cursor i ≠ cursor j := fun h => by
          have := hinj i j hi hjlen h
          omega
        rw [List.count_append, hfresh j (by omega) hjlen, List.count_replicate]
        simp [hji])]
    rw [drop_flatten pages i hi, List.range'_succ i (n + 1)]
    simp [List.append_assoc]

/-- Claim C7: for a non-empty sequence of member pages, the first one asked for
with the empty options (page 0), every page but the last answered with the
cursor of its successor and the last with none (0), served by a remote whose
page of index `i` fails `fails i` times, `ListOrgMembers` (its ticker delivering
a tick, its inner loop given enough steps) returns the concatenation of the
pages in page order with a nil error; its invocations are, page after page,
`fails i + 1` requests for that page: a failed fetch is repeated for the same
page, adds no member and skips no page. -/
theorem ListOrgMembers_drains (gh : Client) (org : String) (pages : List (List User))
    (cursor fails : Nat → Nat) (ticks fuel : Nat) (hne : pages ≠ [])
    (hfirst : cursor 0 = 0)
    (hnext : ∀ i, i + 1 < pages.length → cursor (i + 1) ≠ 0)
    (hinj : ∀ i j, i < pages.length → j < pages.length → cursor i = cursor j → i = j)
    (hfail : ∀ i tr, i < pages.length →
      tr.count (Call.ListMembers org (cursor i)) < fails i →
      ∃ e, gh.ListMembers tr org (cursor i) = .error e)
    (hok : ∀ i tr, i < pages.length →
      fails i ≤ tr.count (Call.ListMembers org (cursor i)) →
      gh.ListMembers tr org (cursor i)
        = .ok ⟨pages.getD i [], if i + 1 < pages.length then cursor (i + 1) else 0⟩)
    (hticks : 0 < ticks)
    (hfuel : ((List.range pages.length).map (fun i => fails i + 1)).sum ≤ fuel) :
    ListOrgMembers gh ticks fuel org []
      = some ((pages.flatten, none),
          (List.range pages.length).flatMap
            (fun i => List.replicate (fails i + 1) (Call.ListMembers org (cursor i)))) := by
  obtain ⟨t, rfl⟩ : ∃ t, ticks = t + 1 := ⟨ticks - 1, by omega⟩
  obtain ⟨n, hn⟩ : ∃ n, pages.length = n + 1 :=
    ⟨pages.length - 1, by have := List.length_pos.mpr hne; omega⟩
  obtain ⟨extra, rfl⟩ : ∃ extra, fuel
      = extra + ((List.range pages.length).map (fun i => fails i + 1)).sum :=
    ⟨fuel - ((List.range pages.length).map (fun i => fails i + 1)).sum, by omega⟩
  have h := pages_drain gh org pages cursor fails hnext hinj hfail hok n 0 extra [] []
    (by omega) (by intro j _ _; simp)
  rw [List.range_eq_range', hn]
  simp only [ListOrgMembers]
  rw [hfirst] at h
  rw [h]
  simp

/-- Claim C7 at two pages with the cursors of the remote (none for the first
request, 2 for the second page), the first page failing once and the second
three times. -/
theorem ListOrgMembers_drains_witness :
    ([[alice, bob], [carol]] : List (List User)) ≠ []
    ∧ pageRequest 0 = 0
    ∧ 0 < 1
    ∧ ((List.range ([[alice, bob], [carol]] : List (List User)).length).map
        (fun i => (if i = 1 then 3 else 1) + 1)).sum ≤ 7
    ∧ ListOrgMembers (flakyClient (fun c => if c = Call.ListMembers "o" 2 then 3 else 1)
          sampleClient) 1 7 "o" []
        = some (([alice, bob, carol], none),
            [Call.ListMembers "o" 0, Call.ListMembers "o" 0, Call.ListMembers "o" 2,
              Call.ListMembers "o" 2, Call.ListMembers "o" 2, Call.ListMembers "o" 2]) :=
  ⟨by decide, rfl, by decide, by decide,
    ListOrgMembers_drains
      (flakyClient (fun c => if c = Call.ListMembers "o" 2 then 3 else 1) sampleClient) "o"
      [[alice, bob], [carol]] pageRequest (fun i => if i = 1 then 3 else 1) 1 7 (by decide)
      rfl (by intro i _; simp [pageRequest])
      (fun i j _ _ h => pageRequest_injective h)
      (by
        intro i tr hi hlt
        simp only [List.length_cons, List.length_nil] at hi
        interval_cases i
        · refine ⟨"502 Bad Gateway", ?_⟩
          show (if tr.count (Call.ListMembers "o" 0) < 1 then Except.error "502 Bad Gateway"
            else sampleClient.ListMembers tr "o" 0) = _
          exact if_pos (show tr.count (Call.ListMembers "o" 0) < 1 from hlt)
        · refine ⟨"502 Bad Gateway", ?_⟩
          show (if tr.count (Call.ListMembers "o" 2) < 3 then Except.error "502 Bad Gateway"
            else sampleClient.ListMembers tr "o" 2) = _
          exact if_pos (show tr.count (Call.ListMembers "o" 2) < 3 from hlt))
      (by
        intro i tr hi hle
        simp only [List.length_cons, List.length_nil] at hi
        interval_cases i
        · show (if tr.count (Call.ListMembers "o" 0) < 1 then Except.error "502 Bad Gateway"
            else sampleClient.ListMembers tr "o" 0) = _
          rw [if_neg (Nat.not_lt.mpr (show 1 ≤ tr.count (Call.ListMembers "o" 0) from hle))]
          rfl
        · show (if tr.count (Call.ListMembers "o" 2) < 3 then Except.error "502 Bad Gateway"
            else sampleClient.ListMembers tr "o" 2) = _
          rw [if_neg (Nat.not_lt.mpr (show 3 ≤ tr.count (Call.ListMembers "o" 2) from hle))]
          rfl)
      (by decide) (by decide)⟩


/-! ## The team filter and the key loop of `syncKeys` -/

/-- The member loop of the team filter keeps, in order, the members for which
`UserInTeam` answers true. -/
theorem filterTeam_filter (gh : Client) (ticks : Nat) (team : Team) (active : User → Bool) :
    ∀ (members membersFiltered : List User) (tr : List Call),
      (∀ user ∈ members, ∀ tr, ∃ tr1, UserInTeam gh ticks user team tr = (active user, tr1)) →
      ∃ tr1, syncKeys.filterTeam gh ticks team members membersFiltered tr
        = (membersFiltered ++ members.filter active, tr1) := by
  intro members
  induction members with
  | nil => intro acc tr _; exact ⟨tr, by simp [syncKeys.filterTeam]⟩
  | cons m rest ih =>
    intro acc tr h
    obtain ⟨tr1, h1⟩ := h m (List.mem_cons_self m rest) tr
    obtain ⟨tr2, h2⟩ := ih (if active m then acc ++ [m] else acc) tr1
      (fun user hu => h user (List.mem_cons_of_mem m hu))
    refine ⟨tr2, ?_⟩
    simp only [syncKeys.filterTeam, h1, h2]
    by_cases hm : active m = true
    · simp [hm, List.filter_cons]
    · simp [hm, List.filter_cons]

/-- The team loop appends, team after team, the members active in the team. -/
theorem teams_flatMap (gh : Client) (ticks : Nat) (org : String) (members : List User)
    (teamOf : String → Team) (active : Team → User → Bool) :
    ∀ (names : List String) (membersFiltered : List User) (tr : List Call),
      (∀ name ∈ names, ∀ tr, ∃ tr1,
        GetTeamByName gh ticks org name tr = ((some (teamOf name), none), tr1)) →
      (∀ name ∈ names, ∀ user ∈ members, ∀ tr, ∃ tr1,
        UserInTeam gh ticks user (teamOf name) tr = (active (teamOf name) user, tr1)) →
      ∃ tr1, syncKeys.teams gh ticks org members names membersFiltered tr
        = (.ok (membersFiltered
            ++ names.flatMap (fun name => members.filter (active (teamOf name)))), tr1) := by
  intro names
  induction names with
  | nil => intro acc tr _ _; exact ⟨tr, by simp [syncKeys.teams]⟩
  | cons name rest ih =>
    intro acc tr hres hact
    obtain ⟨tr1, h1⟩ := hres name (List.mem_cons_self name rest) tr
    obtain ⟨tr2, h2⟩ := filterTeam_filter gh ticks (teamOf name) (active (teamOf name))
      members acc tr1 (hact name (List.mem_cons_self name rest))
    obtain ⟨tr3, h3⟩ := ih (acc ++ members.filter (active (teamOf name))) tr2
      (fun n hn => hres n (List.mem_cons_of_mem name hn))
      (fun n hn => hact n (List.mem_cons_of_mem name hn))
    refine ⟨tr3, ?_⟩
    simp only [syncKeys.teams, h1, Option.getD_some, h2, h3]
    simp [List.flatMap_cons, List.append_assoc]

/-- The key loop appends, member after member, the keys fetched for the member. -/
theorem keys_flatMap (gh : Client) (ticks : Nat) (keysOf : User → List Key) :
    ∀ (members : List User) (keys : List Key) (tr : List Call),
      (∀ user ∈ members, ∀ tr, ∃ tr1,
        GetUserSSHKeys gh ticks user tr = ((keysOf user, none), tr1)) →
      ∃ tr1, syncKeys.keys gh ticks members keys tr
        = (.ok (keys ++ members.flatMap keysOf), tr1) := by
  intro members
  induction members with
  | nil => intro keys tr _; exact ⟨tr, by simp [syncKeys.keys]⟩
  | cons m rest ih =>
    intro keys tr h
    obtain ⟨tr1, h1⟩ := h m (List.mem_cons_self m rest) tr
    obtain ⟨tr2, h2⟩ := ih (keys ++ keysOf m) tr1
      (fun user hu => h user (List.mem_cons_of_mem m hu))
    refine ⟨tr2, ?_⟩
    simp only [syncKeys.keys, h1, h2]
    simp [List.flatMap_cons, List.append_assoc]

/-- How often an identity occurs among the members kept for the listed teams. -/
theorem count_team_filter (members : List User) (hnodup : members.Nodup) (user : User)
    (huser : user ∈ members) (p : String → User → Bool) (names : List String) :
    (names.flatMap (fun name => members.filter (p name))).count user
      = names.countP (fun name => p name user) := by
  induction names with
  | nil => simp
  | cons name rest ih =>
    rw [List.flatMap_cons, List.count_append, ih, List.countP_cons]
    have hcount : (members.filter (p name)).count user = if p name user then 1 else 0 := by
      by_cases hp : p name user = true
      · rw [if_pos hp]
        exact List.count_eq_one_of_mem (hnodup.filter _) (List.mem_filter.mpr ⟨huser, hp⟩)
      · rw [if_neg hp]
        exact List.count_eq_zero_of_not_mem (fun h => hp (List.mem_filter.mp h).2)
    rw [hcount]
    omega

/-- Claim C10: in team-filter mode (a team list, no repository list), when the
member listing returned `members`, every listed name resolves to a team and the
lookups answer `active` for a team and a member and `keysOf` for a member, the
sequence `membersFiltered` built by `syncKeys` is the concatenation, over the
listed teams in order, of the members (in the order of `members`) active in the
team; the keys are the concatenation, in that same order, of the keys fetched
for each entry, and they are what `syncKeys` renders and saves; an identity
listed once in `members` occurs as many times as there are listed teams in
which it is active. -/
theorem syncKeys_team_filter (cfg : Config) (gh : Client) (os : OS) (ticks fuel : Nat)
    (w : World) (members : List User) (tr1 : List Call)
    (teamOf : String → Team) (active : Team → User → Bool) (keysOf : User → List Key)
    (hteam : cfg.cliTeam ≠ "") (hrepo : cfg.cliRepo = "")
    (hmembers : ListOrgMembers gh ticks fuel cfg.cliOrg w.trace = some ((members, none), tr1))
    (hresolve : ∀ name ∈ Split cfg.cliTeam ',', ∀ tr, ∃ tr2,
      GetTeamByName gh ticks cfg.cliOrg name tr = ((some (teamOf name), none), tr2))
    (hactive : ∀ name ∈ Split cfg.cliTeam ',', ∀ user ∈ members, ∀ tr, ∃ tr2,
      UserInTeam gh ticks user (teamOf name) tr = (active (teamOf name) user, tr2))
    (hkeys : ∀ user ∈ members, ∀ tr, ∃ tr2,
      GetUserSSHKeys gh ticks user tr = ((keysOf user, none), tr2)) :
    ∃ tr2 tr3,
      syncKeys.membersFiltered cfg gh ticks fuel w.trace
        = some (.ok ((Split cfg.cliTeam ',').flatMap
            (fun name => members.filter (active (teamOf name)))), tr2)
      ∧ syncKeys.keys gh ticks
          ((Split cfg.cliTeam ',').flatMap (fun name => members.filter (active (teamOf name))))
          [] tr2
        = (.ok (((Split cfg.cliTeam ',').flatMap
            (fun name => members.filter (active (teamOf name)))).flatMap keysOf), tr3)
      ∧ syncKeys cfg gh os ticks fuel w
        = some (syncKeys.save cfg os
            (((Split cfg.cliTeam ',').flatMap
              (fun name => members.filter (active (teamOf name)))).flatMap keysOf)
            ⟨tr3, w.stdout, w.writes, w.chowns⟩)
      ∧ (members.Nodup → ∀ user ∈ members,
          ((Split cfg.cliTeam ',').flatMap
            (fun name => members.filter (active (teamOf name)))).count user
            = (Split cfg.cliTeam ',').countP (fun name => active (teamOf name) user)) := by
  obtain ⟨tr2, h2⟩ := teams_flatMap gh ticks cfg.cliOrg members teamOf active
    (Split cfg.cliTeam ',') [] tr1 hresolve hactive
  have hmf : syncKeys.membersFiltered cfg gh ticks fuel w.trace
      = some (.ok ((Split cfg.cliTeam ',').flatMap
          (fun name => members.filter (active (teamOf name)))), tr2) := by
    simp [syncKeys.membersFiltered, hmembers, hteam, hrepo, h2]
  obtain ⟨tr3, h3⟩ := keys_flatMap gh ticks keysOf
    ((Split cfg.cliTeam ',').flatMap (fun name => members.filter (active (teamOf name))))
    [] tr2
    (by
      intro user hu tr
      obtain ⟨_, _, hmem⟩ := List.mem_flatMap.mp hu
      exact hkeys user (List.mem_filter.mp hmem).1 tr)
  simp only [List.nil_append] at h3
  refine ⟨tr2, tr3, hmf, h3, ?_, ?_⟩
  · simp only [syncKeys, hmf, h3]
  · intro hnodup user huser
    exact count_team_filter members hnodup user huser (fun name => active (teamOf name))
      (Split cfg.cliTeam ',')


/-- Claim C10 at the teams `devs,ops` of the sample remote: alice is active in
both teams and occurs twice, bob is active in `ops` only, carol in none. -/
theorem syncKeys_team_filter_witness :
    ∃ tr2 tr3,
      syncKeys.membersFiltered teamConfig smallClient 1 1 World.init.trace
        = some (.ok [alice, alice, bob], tr2)
      ∧ syncKeys.keys smallClient 1 [alice, alice, bob] [] tr2
        = (.ok [⟨"alice - 7", "ssh-rsa AAAA"⟩, ⟨"alice - 8", "ssh-rsa BBBB"⟩,
            ⟨"alice - 7", "ssh-rsa AAAA"⟩, ⟨"alice - 8", "ssh-rsa BBBB"⟩,
            ⟨"bob - 9", "ssh-ed25519 CCCC"⟩], tr3)
      ∧ syncKeys teamConfig smallClient sampleOS 1 1 World.init
        = some (syncKeys.save teamConfig sampleOS
            [⟨"alice - 7", "ssh-rsa AAAA"⟩, ⟨"alice - 8", "ssh-rsa BBBB"⟩,
              ⟨"alice - 7", "ssh-rsa AAAA"⟩, ⟨"alice - 8", "ssh-rsa BBBB"⟩,
              ⟨"bob - 9", "ssh-ed25519 CCCC"⟩]
            ⟨tr3, [], [], []⟩)
      ∧ ([alice, bob, carol].Nodup → ∀ user ∈ [alice, bob, carol],
          [alice, alice, bob].count user
            = ["devs", "ops"].countP
                (fun name => (UserInTeam smallClient 1 user (sampleTeamOf name) []).1)) :=
  syncKeys_team_filter teamConfig smallClient sampleOS 1 1 World.init [alice, bob, carol]
    [Call.ListMembers "o" 0] sampleTeamOf
    (fun team user => (UserInTeam smallClient 1 user team []).1)
    (fun user => (GetUserSSHKeys smallClient 1 user []).1.1)
    (by decide) rfl rfl
    (by
      intro name hname tr
      have hsplit : Split teamConfig.cliTeam ',' = ["devs", "ops"] := by decide
      rw [hsplit] at hname
      simp only [List.mem_cons, List.mem_singleton, List.not_mem_nil, or_false] at hname
      rcases hname with rfl | rfl <;> exact ⟨_, rfl⟩)
    (by
      intro name hname user huser tr
      have hsplit : Split teamConfig.cliTeam ',' = ["devs", "ops"] := by decide
      rw [hsplit] at hname
      simp only [List.mem_cons, List.mem_singleton, List.not_mem_nil, or_false] at hname huser
      rcases hname with rfl | rfl <;> rcases huser with rfl | rfl | rfl <;> exact ⟨_, rfl⟩)
    (by
      intro user huser tr
      simp only [List.mem_cons, List.mem_singleton, List.not_mem_nil, or_false] at huser
      rcases huser with rfl | rfl | rfl <;> exact ⟨_, rfl⟩)


/-! ## Listings that are read from their first page only -/

/-- Whatever the remote does, `GetTeamByName` does not return a nil team with a
nil error. -/
theorem GetTeamByName_not_nil_nil (gh : Client) (ticks : Nat) (org name : String)
    (tr : List Call) : (GetTeamByName gh ticks org name tr).1 ≠ (none, none) := by
  simp only [GetTeamByName]
  split
  · simp
  · split <;> simp

/-- Within the page its one listing call is answered with, `GetTeamByName`
returns an error exactly when no team of the page has the name, and a team it
returns is a team of the page with that name. -/
theorem GetTeamByName_page_iff (gh : Client) (ticks N : Nat) (org name : String)
    (tr : List Call) (v : Page Team) (hN : N < ticks)
    (hfail : ∀ k, k < N → ∃ e,
      gh.ListTeams (tr ++ List.replicate k (Call.ListTeams org 0)) org 0 = .error e)
    (hlast : gh.ListTeams (tr ++ List.replicate N (Call.ListTeams org 0)) org 0 = .ok v) :
    ((GetTeamByName gh ticks org name tr).1.2 ≠ none ↔ ∀ team ∈ v.items, team.GetName ≠ name)
    ∧ (∀ team, (GetTeamByName gh ticks org name tr).1.1 = some team →
        team ∈ v.items ∧ team.GetName = name
          ∧ (GetTeamByName gh ticks org name tr).1.2 = none) := by
  rw [GetTeamByName_answer gh ticks N org name tr v hN hfail hlast]
  cases hfind : v.items.find? (fun team => team.GetName == name) with
  | none =>
    refine ⟨?_, by simp⟩
    simp only [ne_eq, reduceCtorEq, not_false_eq_true, true_iff]
    intro team hteam
    have := List.find?_eq_none.mp hfind team hteam
    simpa using this
  | some team =>
    have hmem := List.mem_of_find?_eq_some hfind
    have hname : team.GetName = name := by
      have := List.find?_some hfind
      simpa using this
    refine ⟨?_, ?_⟩
    · simp only [ne_eq, not_true_eq_false, false_iff, not_forall]
      exact ⟨team, hmem, fun h => h hname⟩
    · intro team1 h1
      simp only [Option.some.injEq] at h1
      subst h1
      exact ⟨hmem, hname, rfl⟩

/-- The repository loop appends, repository after repository, what
`GetRepoCollaborators` returns for the repository. -/
theorem repos_flatMap (gh : Client) (ticks : Nat) (org : String)
    (collaboratorsOf : String → List User) :
    ∀ (repos : List String) (membersFiltered : List User) (tr : List Call),
      (∀ repo ∈ repos, ∀ tr, ∃ tr1,
        GetRepoCollaborators gh ticks org repo tr = ((collaboratorsOf repo, none), tr1)) →
      ∃ tr1, syncKeys.repos gh ticks org repos membersFiltered tr
        = (.ok (membersFiltered ++ repos.flatMap collaboratorsOf), tr1) := by
  intro repos
  induction repos with
  | nil => intro acc tr _; exact ⟨tr, by simp [syncKeys.repos]⟩
  | cons repo rest ih =>
    intro acc tr h
    obtain ⟨tr1, h1⟩ := h repo (List.mem_cons_self repo rest) tr
    obtain ⟨tr2, h2⟩ := ih (acc ++ collaboratorsOf repo) tr1
      (fun r hr => h r (List.mem_cons_of_mem repo hr))
    refine ⟨tr2, ?_⟩
    have hfold : List.foldl (fun acc x => acc ++ [x]) acc (collaboratorsOf repo)
        = acc ++ collaboratorsOf repo := by
      rw [foldl_append_singleton (fun u : User => u) (collaboratorsOf repo) acc]
      simp
    simp only [syncKeys.repos, h1, hfold, h2]
    simp [List.flatMap_cons, List.append_assoc]

/-- Claim C3 at its failing input: the team listing of the organisation has two
pages, `devs` on the first and `ops` on the second; `GetTeamByName` asks for
the first page only and returns the error that `ops` is not part of the
organisation. -/
theorem GetTeamByName_misses_second_page :
    sampleClient.ListTeams [] "o" 0 = .ok ⟨[devs], 2⟩
    ∧ sampleClient.ListTeams [Call.ListTeams "o" 0] "o" 2 = .ok ⟨[ops], 0⟩
    ∧ ops.GetName = "ops"
    ∧ GetTeamByName sampleClient 5 "o" "ops" []
        = ((none, some "Team ops not part of organisation o"), [Call.ListTeams "o" 0]) :=
  ⟨rfl, rfl, rfl, by decide⟩

/-- Claim C8 at its failing input: the collaborators of every repository are
listed on two pages, alice on the first and bob on the second;
`GetRepoCollaborators` asks for the first page only, and with the repository
filter `site,api` the sequence `membersFiltered` holds alice twice and bob not
at all. -/
theorem repo_filter_misses_second_page :
    sampleClient.ListCollaborators [] "o" "site" 0 = .ok ⟨[alice], 2⟩
    ∧ sampleClient.ListCollaborators [] "o" "site" 2 = .ok ⟨[bob], 0⟩
    ∧ GetRepoCollaborators sampleClient 5 "o" "site" []
        = (([alice], none), [Call.ListCollaborators "o" "site" 0])
    ∧ syncKeys.membersFiltered repoConfig sampleClient 5 2 []
        = some (.ok [alice, alice],
            [Call.ListMembers "o" 0, Call.ListMembers "o" 2,
              Call.ListCollaborators "o" "site" 0, Call.ListCollaborators "o" "api" 0]) :=
  ⟨rfl, rfl, by decide, rfl⟩

/-- Claim C9 at its failing input: the keys of alice are listed on two pages;
`GetUserSSHKeys` asks for the first page only and returns one of her two keys. -/
theorem GetUserSSHKeys_misses_second_page :
    sampleClient.ListKeys [] "alice" 0 = .ok ⟨[⟨some 7, some "ssh-rsa AAAA"⟩], 2⟩
    ∧ sampleClient.ListKeys [Call.ListKeys "alice" 0] "alice" 2
        = .ok ⟨[⟨some 8, some "ssh-rsa BBBB"⟩], 0⟩
    ∧ GetUserSSHKeys sampleClient 5 alice []
        = (([⟨"alice - 7", "ssh-rsa AAAA"⟩], none), [Call.ListKeys "alice" 0]) :=
  ⟨rfl, rfl, by decide⟩

end GithubKeys
